import Mathlib

/-!
# Verification of the EIDA `wfc-consistency` reconciliation engine

Shallow embedding of `check_consistency.py`: the per-file classification
function `process_file`, the catalog dictionary `all_files_mongo`, the
four-level FDSN metadata index `nslce`, and the pruning conditions of the
archive walk loop in `__main__`.

Conventions of the embedding:
* Python `dict`s become association lists with distinct keys
  (`alook` models `d[k]` / `k in d`, `eraseCat` models `del d[k]`).
* Python `datetime.date` values become `Date` (year/month/day `Nat`s)
  ordered lexicographically, which coincides with calendar order.
* `datetime.datetime.strptime(s, '%Y.%j')` and `strptime(s, '%Y-%m-%d')`
  become `parseYearJday` / `parseISODate`, returning `none` where Python
  raises `ValueError`.
* timestamps (`created`, `os.path.getmtime`) become `Nat`s compared by `<`,
  an order embedding of the Python comparison on `datetime` values.
* a Python exception escaping the worker function becomes `Except.error`:
  `process_file` has type `... → Except RunState RunState`, and the error
  payload is the state of the globals at the moment the exception escaped
  — the Python globals mutate in place, so an exception does NOT roll back
  mutations already made (in particular a checksum append that precedes a
  failing `os.path.getmtime`).  The surrounding `ThreadPoolExecutor.map`,
  whose futures are never inspected, discards the exception itself;
  `dispatchFile` models that by continuing from the payload state.
* `getMD5Hash` performs file I/O; its outcome is carried in `FileCtx.md5`
  (`none` models the `return None` taken when opening/reading the file
  raises, `some h` the computed hex digest).  `os.path.getmtime` at line
  293 sits outside any `try` and can itself raise (file deleted after
  `os.listdir`); its outcome is `FileCtx.mtime` (`none` = the call raises).
-/

set_option autoImplicit false

namespace WfcConsistency

/-- A calendar date, as produced by Python `datetime.date`. -/
structure Date where
  y : Nat
  m : Nat
  d : Nat
deriving DecidableEq, Repr

/-- Python `datetime.date` comparison: lexicographic on (year, month, day). -/
def dateLe (a b : Date) : Bool :=
  decide (a.y < b.y ∨ (a.y = b.y ∧ (a.m < b.m ∨ (a.m = b.m ∧ a.d ≤ b.d))))

/-- Gregorian leap-year rule used by Python's `datetime`. -/
def isLeap (y : Nat) : Bool :=
  y % 4 = 0 && (y % 100 ≠ 0 || y % 400 = 0)

/-- Length of month `m` of year `y` (0 for an invalid month number). -/
def monthLen (y m : Nat) : Nat :=
  match m with
  | 1 => 31 | 2 => if isLeap y then 29 else 28 | 3 => 31
  | 4 => 30 | 5 => 31 | 6 => 30 | 7 => 31
  | 8 => 31 | 9 => 30 | 10 => 31 | 11 => 30 | 12 => 31
  | _ => 0

/-- Number of days in year `y`. -/
def daysInYear (y : Nat) : Nat := if isLeap y then 366 else 365

/-- Convert a day-of-year ordinal to (month, day), walking the months.
`fuel` is a recursion bound; 12 suffices for any in-range ordinal. -/
def mdGo (y : Nat) : Nat → Nat → Nat → Option (Nat × Nat)
  | 0, _, _ => none
  | fuel + 1, m, j => if j ≤ monthLen y m then some (m, j) else mdGo y fuel (m + 1) (j - monthLen y m)

/-- The date CPython's `strptime('%Y.%j')` builds from year `y` and Julian
day `j`: years 1-9999, days 1-366, computed as
`fromordinal(date(y,1,1).toordinal() + j - 1)`, so day 366 of a common
year is January 1 of `y + 1` (and year 9999 day 366 overflows). -/
def dateOfYJ (y j : Nat) : Option Date :=
  if 1 ≤ y ∧ y ≤ 9999 ∧ 1 ≤ j ∧ j ≤ 366 then
    if j ≤ daysInYear y then
      (mdGo y 12 1 j).map (fun md => ⟨y, md.1, md.2⟩)
    else if y + 1 ≤ 9999 then some ⟨y + 1, 1, j - daysInYear y⟩
    else none
  else
    none

/-- Python `str.split(sep)` for a single-character separator, over the
character list (`"".split(sep) == ['']`, separators at either end produce
empty fields, exactly as in Python). -/
def splitCh (sep : Char) : List Char → List (List Char)
  | [] => [[]]
  | c :: cs =>
    match splitCh sep cs with
    | [] => [[]]
    | g :: gs => if c = sep then [] :: g :: gs else (c :: g) :: gs

/-- Python `s.split(sep)` for a one-character separator string. -/
def pySplit (s : String) (sep : Char) : List String :=
  (splitCh sep s.data).map (fun l => ⟨l⟩)

/-- Numeric value of a decimal digit character. -/
def charDigit (c : Char) : Option Nat :=
  if '0' ≤ c ∧ c ≤ '9' then some (c.toNat - '0'.toNat) else none

/-- Accumulating decimal evaluation of a character run. -/
def digitsVal : List Char → Nat → Option Nat
  | [], acc => some acc
  | c :: cs, acc =>
    match charDigit c with
    | some d => digitsVal cs (acc * 10 + d)
    | none => none

/-- A `strptime` field directive: an all-digit run whose width lies in
`[wlo, whi]` (CPython's `%Y` is exactly 4 digits, `%m`/`%d` are 1-2,
`%j` is 1-3). -/
def digitRun (s : String) (wlo whi : Nat) : Option Nat :=
  if wlo ≤ s.data.length ∧ s.data.length ≤ whi then digitsVal s.data 0 else none

/-- The `try` block of `process_file`: `strptime(parts[-2] + '.' + parts[-1], '%Y.%j')`.
An out-of-range list index inside the `try` (fewer than two dot fields) is
also caught by the bare `except`, hence the `Option String` arguments.
`%Y` demands exactly four digits and `%j` one to three digits valued
1-366; day 366 of a common year rolls over to January 1 of the next year
(CPython computes the date through `fromordinal`). -/
def parseYearJday (ys? js? : Option String) : Option Date :=
  match ys?, js? with
  | some ys, some js =>
    match digitRun ys 4 4, digitRun js 1 3 with
    | some y, some j => dateOfYJ y j
    | _, _ => none
  | _, _ => none

/-- `datetime.strptime(s.split('T')[0], '%Y-%m-%d').date()`: four-digit
year, one/two-digit month and day, ranges validated by the `date`
constructor. -/
def parseISODate (s : String) : Option Date :=
  match (pySplit ((pySplit s 'T').headD "") '-') with
  | [ys, ms, ds] =>
    match digitRun ys 4 4, digitRun ms 1 2, digitRun ds 1 2 with
    | some y, some m, some d =>
      if 1 ≤ y ∧ y ≤ 9999 ∧ 1 ≤ m ∧ m ≤ 12 ∧ 1 ≤ d ∧ d ≤ monthLen y m then
        some ⟨y, m, d⟩
      else none
    | _, _, _ => none
  | _ => none

/-- The far-future sentinel substituted for an open epoch end
(`epoch[1] if epoch[1] else '2200-01-01T00:00:00'`). -/
def farFuture : String := "2200-01-01T00:00:00"

/-- The end string actually parsed for an epoch: empty means open. -/
def effEnd (en : String) : String := if en = "" then farFuture else en

/-- The epoch scan of `process_file` (lines 279–285): for each `(es, en)`
pair parse the start, substitute the sentinel for an empty end, parse the
end, and stop at the first epoch with `start <= yearDay <= end`.  A parse
failure is an uncaught `ValueError` inside the worker (`Except.error`). -/
def epochLoop (yearDay : Date) : List (String × String) → Except Unit Bool
  | [] => .ok false
  | (es, en) :: rest =>
    match parseISODate es with
    | none => .error ()
    | some start =>
      match parseISODate (effEnd en) with
      | none => .error ()
      | some stop =>
        if dateLe start yearDay && dateLe yearDay stop then .ok true
        else epochLoop yearDay rest

/-- Association-list lookup, modelling Python `d[k]` (`some` ↔ key present,
so `(alook d k).isSome` is `k in d`). -/
def alook {β : Type} : List (String × β) → String → Option β
  | [], _ => none
  | (k', v) :: rest, k => if k' = k then some v else alook rest k

/-- `nslce[n][s][l][c]`: list of `(epoch_start, epoch_end)` string pairs. -/
abbrev ChEp := List (String × List (String × String))

/-- `nslce[n][s]`: location → channel → epochs. -/
abbrev LocCh := List (String × ChEp)

/-- `nslce[n]`: station → location → channel → epochs. -/
abbrev StaL := List (String × LocCh)

/-- The full FDSN metadata index `nslce`. -/
abbrev NslceT := List (String × StaL)

/-- `all_files_mongo`: file name → (checksum, created timestamp). -/
abbrev Catalog := List (String × String × Nat)

instance : DecidableEq ChEp := inferInstance

instance : DecidableEq LocCh := inferInstance

instance : DecidableEq StaL := inferInstance

instance : DecidableEq NslceT := inferInstance

/-- `del all_files_mongo[k]` (on a distinct-key dictionary). -/
def eraseCat (c : Catalog) (k : String) : Catalog :=
  c.filter (fun p => p.1 ≠ k)

/-- The key set of the catalog dictionary. -/
def catKeys (c : Catalog) : List String := c.map Prod.fst

/-- The parsed command-line options of `parse_arguments` that the engine
reads: `-s`, `-e` (ints), `-x` (string or `None`), `-c` (flag). -/
structure Args where
  startY : Int
  endY : Int
  exclude : Option String
  checksum : Bool
deriving DecidableEq, Repr

/-- One file visit: the full path handed to `process_file` plus the
outcomes of the two I/O reads it may perform.  `md5` is what `getMD5Hash`
returns (`none` on an unreadable file — the exception is caught inside).
`mtime` is the outcome of `os.path.getmtime`, which is NOT guarded by any
`try`: `none` means the call raises (e.g. the file was deleted after
`os.listdir`), killing the worker mid-branch. -/
structure FileCtx where
  path : String
  md5 : Option String
  mtime : Option Nat
deriving DecidableEq, Repr

/-- The mutable globals of the script during the walk: the catalog
dictionary plus the five append-only result lists. -/
structure RunState where
  all_files_mongo : Catalog
  inconsistent_epoch_files : List String
  inconsistent_file_naming : List String
  missing_in_mongo_files : List String
  inconsistent_checksum_files : List String
  older_date_files : List String
deriving DecidableEq, Repr

/-- `inconsistent_file_naming.append(fileName)`. -/
def addNaming (s : RunState) (fn : String) : RunState :=
  { s with inconsistent_file_naming := s.inconsistent_file_naming ++ [fn] }

/-- `inconsistent_epoch_files.append(fileName)`. -/
def addEpoch (s : RunState) (fn : String) : RunState :=
  { s with inconsistent_epoch_files := s.inconsistent_epoch_files ++ [fn] }

/-- `missing_in_mongo_files.append(fileName)`. -/
def addMissing (s : RunState) (fn : String) : RunState :=
  { s with missing_in_mongo_files := s.missing_in_mongo_files ++ [fn] }

/-- Python `l[i]` for a nonnegative index (`none` ↔ `IndexError`). -/
def pyGet (l : List String) (i : Nat) : Option String := l[i]?

/-- Python `l[-k]` for `k ≥ 1` (`none` ↔ `IndexError`). -/
def pyGetNeg {α : Type} (l : List α) (k : Nat) : Option α :=
  if k ≤ l.length then l[l.length - k]? else none

/-- `file.split('/')[-1]`: a split never yields an empty list, so this
always succeeds. -/
def fileNameOf (path : String) : String := (pySplit path '/').getLastD ""

/-- Lines 290–291: the optional checksum flagging (`None != chksm` is
`True` in Python, so an unreadable file counts as mismatching). -/
def chkStep (args : Args) (ctx : FileCtx) (fileName chksm : String)
    (s : RunState) : RunState :=
  if args.checksum && decide (ctx.md5 ≠ some chksm) then
    { s with inconsistent_checksum_files := s.inconsistent_checksum_files ++ [fileName] }
  else s

/-- Lines 292–294: the older-date check once the modification time `mt`
has been read successfully. -/
def olderStep (fileName : String) (created mt : Nat) (s : RunState) : RunState :=
  if created < mt then
    { s with older_date_files := s.older_date_files ++ [fileName] }
  else s

/-- Lines 288–297 of `process_file`: the branch taken when the file name is
present in `all_files_mongo` (with `chksm`/`created` its stored record):
optionally flag a checksum mismatch, then read the modification time —
`os.path.getmtime` is outside any `try`, so if it raises the worker dies
HERE, after the checksum append and before both the older-date check and
the `del` — otherwise flag a stale creation date and delete the catalog
entry. -/
def inCatalogStep (args : Args) (ctx : FileCtx) (fileName chksm : String)
    (created : Nat) (s : RunState) : Except RunState RunState :=
  let s1 := chkStep args ctx fileName chksm s
  match ctx.mtime with
  | none => .error s1
  | some mt =>
    let s2 := olderStep fileName created mt s1
    .ok { s2 with all_files_mongo := eraseCat s2.all_files_mongo fileName }

/-- `process_file` (lines 262–300), with the walk invariant that the
enclosing-scope globals `network`/`station` used at line 279 equal the
path components `file.split('/')[-4]` / `[-3]` used at line 277 (the walk
builds the path from those very loop variables).  `Except.error` marks
a Python exception escaping the worker — `IndexError` on `parts[2]` /
`parts[3]` / a too-short path, `KeyError` on the `nslce` lookups, a
`ValueError` from an unparseable epoch date, or an `OSError` from
`os.path.getmtime` — and carries the globals as mutated at that point
(the in-place mutations are not rolled back). -/
def process_file (args : Args) (nslce : NslceT) (ctx : FileCtx)
    (s : RunState) : Except RunState RunState :=
  let comps := pySplit ctx.path '/'
  let fileName := comps.getLastD ""
  let parts := pySplit fileName '.'
  match parseYearJday (pyGetNeg parts 2) (pyGetNeg parts 1) with
  | none => .ok (addNaming s fileName)
  | some yearDay =>
    match pyGet parts 2 with
    | none => .error s
    | some loc =>
      match pyGetNeg comps 4, pyGetNeg comps 3 with
      | some net, some sta =>
        match alook nslce net with
        | none => .error s
        | some staL =>
          match alook staL sta with
          | none => .error s
          | some locCh =>
            if (alook locCh loc).isSome then
              match pyGet parts 3 with
              | none => .error s
              | some cha =>
                let chEp := (alook locCh loc).getD []
                if (alook chEp cha).isSome then
                  match epochLoop yearDay ((alook chEp cha).getD []) with
                  | .error _ => .error s
                  | .ok metaOK =>
                    if !metaOK then .ok (addEpoch s fileName)
                    else
                      match alook s.all_files_mongo fileName with
                      | some (chksm, created) =>
                        inCatalogStep args ctx fileName chksm created s
                      | none => .ok (addMissing s fileName)
                else .ok s
            else .ok s
      | _, _ => .error s

/-- One `executor.map(process_file, files)` task: the returned futures are
never inspected, so an exception is silently discarded and the walk
continues from the globals as the worker left them (including any
mutations made before the exception). -/
def dispatchFile (args : Args) (nslce : NslceT) (s : RunState)
    (ctx : FileCtx) : RunState :=
  match process_file args nslce ctx s with
  | .ok s' => s'
  | .error s' => s'

/-- The globals after the in-catalog branch, whether it completed or died
at the `getmtime` call. -/
def icsState (args : Args) (ctx : FileCtx) (fileName chksm : String)
    (created : Nat) (s : RunState) : RunState :=
  match inCatalogStep args ctx fileName chksm created s with
  | .ok t => t
  | .error t => t

/-- The whole walk's effect on the globals: sequential fold of
`dispatchFile` over every file visited (classification is applied in some
linear order; the claims proved below are order-independent). -/
def runWalk (args : Args) (nslce : NslceT) (s : RunState) :
    List FileCtx → RunState
  | [] => s
  | ctx :: rest => runWalk args nslce (dispatchFile args nslce s ctx) rest

/-- A visit removed its file's key from the catalog dictionary: this is
exactly the "present in the catalog with a matching epoch" branch, the one
ending in `del all_files_mongo[fileName]`. -/
def stepRemoved (args : Args) (nslce : NslceT) (s : RunState)
    (ctx : FileCtx) : Bool :=
  decide (fileNameOf ctx.path ∈ catKeys s.all_files_mongo) &&
    !decide (fileNameOf ctx.path ∈ catKeys (dispatchFile args nslce s ctx).all_files_mongo)

/-- The keys matched (and hence deleted) over the course of the walk. -/
def matchedKeys (args : Args) (nslce : NslceT) (s : RunState) :
    List FileCtx → List String
  | [] => []
  | ctx :: rest =>
    (if stepRemoved args nslce s ctx then [fileNameOf ctx.path] else []) ++
      matchedKeys args nslce (dispatchFile args nslce s ctx) rest

/-- Python `int(s)`: optional surrounding spaces, optional sign, then a
nonempty digit run; anything else raises `ValueError` (`none`). -/
def pyInt (s : String) : Option Int :=
  let l := ((s.data.dropWhile (fun c => decide (c = ' '))).reverse.dropWhile
    (fun c => decide (c = ' '))).reverse
  match l with
  | '-' :: rest => (match rest with
      | [] => none
      | _ => (digitsVal rest 0).map (fun n => -(n : Int)))
  | '+' :: rest => (match rest with
      | [] => none
      | _ => (digitsVal rest 0).map (fun n => (n : Int)))
  | [] => none
  | rest => (digitsVal rest 0).map (fun n => (n : Int))

/-- Year-level step of the walk loop (line 321):
`args.start <= int(year) <= args.end`.  The `int` call is not inside any
`try`, so a non-numeric directory name is an uncaught `ValueError`. -/
def yearAdmit (args : Args) (year : String) : Except Unit Bool :=
  match pyInt year with
  | none => .error ()
  | some y => .ok (decide (args.startY ≤ y ∧ y ≤ args.endY))

/-- `List.isPrefixOf` on characters, as a `Bool`. -/
def startsWithCh : List Char → List Char → Bool
  | [], _ => true
  | _ :: _, [] => false
  | a :: as, b :: bs => decide (a = b) && startsWithCh as bs

/-- Substring occurrence on character lists. -/
def chInfixOf (needle : List Char) (hay : List Char) : Bool :=
  match hay with
  | [] => startsWithCh needle []
  | _ :: t => startsWithCh needle hay || chInfixOf needle t

/-- Python's `needle in hay` on strings: substring containment. -/
def pySubstr (needle hay : String) : Bool := chInfixOf needle.data hay.data

/-- Network-level pruning (line 325):
`network in allNets and (not args.exclude or network not in args.exclude)`.
Note `args.exclude` is the raw comma-separated option string, so the
membership test is Python substring containment, not list membership. -/
def networkAdmit (nslce : NslceT) (args : Args) (network : String) : Bool :=
  (alook nslce network).isSome &&
    (match args.exclude with
     | none => true
     | some ex => if ex = "" then true else !pySubstr network ex)

/-- The exclusion option read as a list, as `getFromDB` does with
`args.exclude.split(',')` and as the option's help text describes
("List of comma-separated networks to be excluded"). -/
def excludeList (exclude : Option String) : List String :=
  match exclude with
  | none => []
  | some ex => if ex = "" then [] else pySplit ex ','

/-- Modelled from the spec: network admission with the exclusion option
interpreted as a list of network codes ("skip networks … present in the
exclusion list", §4.5), for comparison with `networkAdmit`. -/
def networkAdmitSpec (nslce : NslceT) (exclude : Option String)
    (network : String) : Bool :=
  (alook nslce network).isSome && !decide (network ∈ excludeList exclude)

/-- Station-level pruning (line 329): `station in allStas`. -/
def stationAdmit (staL : StaL) (station : String) : Bool :=
  (alook staL station).isSome

/-- Lines 331–334: all channels over all locations of a station. -/
def allChanns (locCh : LocCh) : List String :=
  (locCh.map (fun p => p.2.map Prod.fst)).flatten

/-- Channel-level pruning (line 337): `channel.split('.')[0] in allChanns`. -/
def channelAdmit (locCh : LocCh) (channel : String) : Bool :=
  decide ((pySplit channel '.').headD "" ∈ allChanns locCh)

/-- The conjunction of pruning levels for one
`year/network/station/channel` directory chain: files inside it reach
`process_file` exactly when this yields `.ok true`. -/
def walkAdmits (args : Args) (nslce : NslceT)
    (year network station channel : String) : Except Unit Bool :=
  match yearAdmit args year with
  | .error e => .error e
  | .ok false => .ok false
  | .ok true =>
    if networkAdmit nslce args network then
      match alook nslce network with
      | none => .ok false
      | some staL =>
        if stationAdmit staL station then
          match alook staL station with
          | none => .ok false
          | some locCh => .ok (channelAdmit locCh channel)
        else .ok false
    else .ok false

end WfcConsistency

namespace WfcConsistency

/-! Sanity checks of the embedding on concrete inputs. -/

/-- A small metadata index: `HL.ATH`, location `00`, channel `HHZ`, one
open-ended epoch starting 2010-03-02. -/
def nslceEx : NslceT :=
  [("HL", [("ATH", [("00", [("HHZ", [("2010-03-02T00:00:00", "")])])])])]

def stateEx : RunState :=
  { all_files_mongo := [("HL.ATH.00.HHZ.D.2015.100", ("abc123", 100))]
    inconsistent_epoch_files := []
    inconsistent_file_naming := []
    missing_in_mongo_files := []
    inconsistent_checksum_files := []
    older_date_files := [] }

def argsEx : Args := { startY := 2015, endY := 2015, exclude := none, checksum := true }

def ctxEx : FileCtx :=
  { path := "/data/2015/HL/ATH/HHZ.D/HL.ATH.00.HHZ.D.2015.100"
    md5 := some "abc123", mtime := some 50 }

-- fully consistent file: no list grows, catalog entry removed
example :
    process_file argsEx nslceEx ctxEx stateEx =
      .ok { stateEx with all_files_mongo := [] } := by rfl

-- stale mtime: older_date fires and the entry is still removed
example :
    process_file argsEx nslceEx { ctxEx with mtime := some 200 } stateEx =
      .ok { stateEx with all_files_mongo := [], older_date_files := ["HL.ATH.00.HHZ.D.2015.100"] } := by rfl

-- file deleted after listdir: getMD5Hash returns None (checksum append
-- fires), then getmtime raises; the worker dies with the append in place
-- and the catalog entry NOT deleted
example :
    process_file argsEx nslceEx { ctxEx with md5 := none, mtime := none } stateEx =
      .error { stateEx with inconsistent_checksum_files := ["HL.ATH.00.HHZ.D.2015.100"] } := by rfl

-- non-numeric julian day: naming error
example :
    process_file argsEx nslceEx
      { ctxEx with path := "/data/2015/HL/ATH/HHZ.D/HL.ATH.00.HHZ.D.2015.ABC" } stateEx =
      .ok { stateEx with inconsistent_file_naming := ["HL.ATH.00.HHZ.D.2015.ABC"] } := by rfl

-- date before the epoch start: inconsistent metadata
example :
    process_file argsEx nslceEx
      { ctxEx with path := "/data/2009/HL/ATH/HHZ.D/HL.ATH.00.HHZ.D.2009.100" } stateEx =
      .ok { stateEx with inconsistent_epoch_files := ["HL.ATH.00.HHZ.D.2009.100"] } := by rfl

-- matching epoch but absent from the catalog: missing in WFCatalog
example :
    process_file argsEx nslceEx
      { ctxEx with path := "/data/2015/HL/ATH/HHZ.D/HL.ATH.00.HHZ.D.2015.101" } stateEx =
      .ok { stateEx with missing_in_mongo_files := ["HL.ATH.00.HHZ.D.2015.101"] } := by rfl

example : parseYearJday (some "2015") (some "100") = some ⟨2015, 4, 10⟩ := by decide

/-! ## Dictionary lemmas -/

theorem mem_catKeys_eraseCat {c : Catalog} {k k' : String} :
    k' ∈ catKeys (eraseCat c k) ↔ k' ∈ catKeys c ∧ k' ≠ k := by
  simp only [catKeys, eraseCat, List.mem_map, List.mem_filter, decide_eq_true_eq]
  constructor
  · rintro ⟨a, ⟨ha, hne⟩, rfl⟩
    exact ⟨⟨a, ha, rfl⟩, hne⟩
  · rintro ⟨⟨a, ha, rfl⟩, hne⟩
    exact ⟨a, ⟨ha, hne⟩, rfl⟩

theorem not_mem_catKeys_eraseCat_self {c : Catalog} {k : String} :
    k ∉ catKeys (eraseCat c k) := by
  intro h
  exact (mem_catKeys_eraseCat.mp h).2 rfl

theorem eraseCat_of_not_mem {c : Catalog} {k : String}
    (h : k ∉ catKeys c) : eraseCat c k = c := by
  apply List.filter_eq_self.mpr
  intro a ha
  simp only [decide_eq_true_eq]
  intro hk
  exact h (hk ▸ List.mem_map_of_mem Prod.fst ha)

theorem alook_isSome_iff_mem_catKeys {c : Catalog} {k : String} :
    (alook c k).isSome ↔ k ∈ catKeys c := by
  induction c with
  | nil => simp [alook, catKeys]
  | cons p rest ih =>
    obtain ⟨k', v⟩ := p
    by_cases h : k' = k
    · subst h
      simp [alook, catKeys]
    · simp [alook, catKeys, h, ih, Ne.symm h]

theorem alook_eq_some_mem_catKeys {c : Catalog} {k : String} {v : String × Nat}
    (h : alook c k = some v) : k ∈ catKeys c :=
  alook_isSome_iff_mem_catKeys.mp (by simp [h])

theorem alook_eq_none_not_mem_catKeys {c : Catalog} {k : String}
    (h : alook c k = none) : k ∉ catKeys c := by
  intro hm
  have := alook_isSome_iff_mem_catKeys.mpr hm
  simp [h] at this

/-! ## Projections of the in-catalog branch -/

theorem chkStep_mongo (args : Args) (ctx : FileCtx) (fn ck : String) (s : RunState) :
    (chkStep args ctx fn ck s).all_files_mongo = s.all_files_mongo := by
  unfold chkStep
  split
  all_goals rfl

theorem chkStep_naming (args : Args) (ctx : FileCtx) (fn ck : String) (s : RunState) :
    (chkStep args ctx fn ck s).inconsistent_file_naming = s.inconsistent_file_naming := by
  unfold chkStep
  split
  all_goals rfl

theorem chkStep_epochL (args : Args) (ctx : FileCtx) (fn ck : String) (s : RunState) :
    (chkStep args ctx fn ck s).inconsistent_epoch_files = s.inconsistent_epoch_files := by
  unfold chkStep
  split
  all_goals rfl

theorem chkStep_missing (args : Args) (ctx : FileCtx) (fn ck : String) (s : RunState) :
    (chkStep args ctx fn ck s).missing_in_mongo_files = s.missing_in_mongo_files := by
  unfold chkStep
  split
  all_goals rfl

theorem chkStep_older (args : Args) (ctx : FileCtx) (fn ck : String) (s : RunState) :
    (chkStep args ctx fn ck s).older_date_files = s.older_date_files := by
  unfold chkStep
  split
  all_goals rfl

theorem chkStep_chk (args : Args) (ctx : FileCtx) (fn ck : String) (s : RunState) :
    (chkStep args ctx fn ck s).inconsistent_checksum_files =
      if args.checksum && decide (ctx.md5 ≠ some ck) then
        s.inconsistent_checksum_files ++ [fn]
      else s.inconsistent_checksum_files := by
  unfold chkStep
  split
  all_goals rfl

theorem olderStep_mongo (fn : String) (cr mt : Nat) (s : RunState) :
    (olderStep fn cr mt s).all_files_mongo = s.all_files_mongo := by
  unfold olderStep
  split
  all_goals rfl

theorem olderStep_naming (fn : String) (cr mt : Nat) (s : RunState) :
    (olderStep fn cr mt s).inconsistent_file_naming = s.inconsistent_file_naming := by
  unfold olderStep
  split
  all_goals rfl

theorem olderStep_epochL (fn : String) (cr mt : Nat) (s : RunState) :
    (olderStep fn cr mt s).inconsistent_epoch_files = s.inconsistent_epoch_files := by
  unfold olderStep
  split
  all_goals rfl

theorem olderStep_missing (fn : String) (cr mt : Nat) (s : RunState) :
    (olderStep fn cr mt s).missing_in_mongo_files = s.missing_in_mongo_files := by
  unfold olderStep
  split
  all_goals rfl

theorem olderStep_chk (fn : String) (cr mt : Nat) (s : RunState) :
    (olderStep fn cr mt s).inconsistent_checksum_files = s.inconsistent_checksum_files := by
  unfold olderStep
  split
  all_goals rfl

theorem olderStep_older (fn : String) (cr mt : Nat) (s : RunState) :
    (olderStep fn cr mt s).older_date_files =
      if cr < mt then s.older_date_files ++ [fn] else s.older_date_files := by
  unfold olderStep
  split
  all_goals rfl

/-- A successful `getmtime` read: the branch completes. -/
theorem inCatalogStep_eq_ok (args : Args) (ctx : FileCtx) (fn ck : String)
    (cr : Nat) (s : RunState) {mt : Nat} (hmt : ctx.mtime = some mt) :
    inCatalogStep args ctx fn ck cr s = .ok (icsState args ctx fn ck cr s) := by
  unfold icsState inCatalogStep
  rw [hmt]

/-- A failing `getmtime` read: the worker dies after the checksum step. -/
theorem inCatalogStep_eq_error (args : Args) (ctx : FileCtx) (fn ck : String)
    (cr : Nat) (s : RunState) (hmt : ctx.mtime = none) :
    inCatalogStep args ctx fn ck cr s = .error (icsState args ctx fn ck cr s) := by
  unfold icsState inCatalogStep
  rw [hmt]

theorem icsState_none (args : Args) (ctx : FileCtx) (fn ck : String)
    (cr : Nat) (s : RunState) (hmt : ctx.mtime = none) :
    icsState args ctx fn ck cr s = chkStep args ctx fn ck s := by
  unfold icsState inCatalogStep
  rw [hmt]

theorem icsState_some (args : Args) (ctx : FileCtx) (fn ck : String)
    (cr : Nat) (s : RunState) {mt : Nat} (hmt : ctx.mtime = some mt) :
    icsState args ctx fn ck cr s =
      { olderStep fn cr mt (chkStep args ctx fn ck s) with
        all_files_mongo :=
          eraseCat (olderStep fn cr mt (chkStep args ctx fn ck s)).all_files_mongo fn } := by
  unfold icsState inCatalogStep
  rw [hmt]

theorem icsState_naming (args : Args) (ctx : FileCtx) (fn ck : String)
    (cr : Nat) (s : RunState) :
    (icsState args ctx fn ck cr s).inconsistent_file_naming =
      s.inconsistent_file_naming := by
  rcases hmt : ctx.mtime with _ | mt
  · rw [icsState_none args ctx fn ck cr s hmt, chkStep_naming]
  · rw [icsState_some args ctx fn ck cr s hmt]
    dsimp only
    rw [olderStep_naming, chkStep_naming]

theorem icsState_epochL (args : Args) (ctx : FileCtx) (fn ck : String)
    (cr : Nat) (s : RunState) :
    (icsState args ctx fn ck cr s).inconsistent_epoch_files =
      s.inconsistent_epoch_files := by
  rcases hmt : ctx.mtime with _ | mt
  · rw [icsState_none args ctx fn ck cr s hmt, chkStep_epochL]
  · rw [icsState_some args ctx fn ck cr s hmt]
    dsimp only
    rw [olderStep_epochL, chkStep_epochL]

theorem icsState_missing (args : Args) (ctx : FileCtx) (fn ck : String)
    (cr : Nat) (s : RunState) :
    (icsState args ctx fn ck cr s).missing_in_mongo_files =
      s.missing_in_mongo_files := by
  rcases hmt : ctx.mtime with _ | mt
  · rw [icsState_none args ctx fn ck cr s hmt, chkStep_missing]
  · rw [icsState_some args ctx fn ck cr s hmt]
    dsimp only
    rw [olderStep_missing, chkStep_missing]

theorem icsState_chk (args : Args) (ctx : FileCtx) (fn ck : String)
    (cr : Nat) (s : RunState) :
    (icsState args ctx fn ck cr s).inconsistent_checksum_files =
      if args.checksum && decide (ctx.md5 ≠ some ck) then
        s.inconsistent_checksum_files ++ [fn]
      else s.inconsistent_checksum_files := by
  rcases hmt : ctx.mtime with _ | mt
  · rw [icsState_none args ctx fn ck cr s hmt, chkStep_chk]
  · rw [icsState_some args ctx fn ck cr s hmt]
    dsimp only
    rw [olderStep_chk, chkStep_chk]

theorem icsState_older_none (args : Args) (ctx : FileCtx) (fn ck : String)
    (cr : Nat) (s : RunState) (hmt : ctx.mtime = none) :
    (icsState args ctx fn ck cr s).older_date_files = s.older_date_files := by
  rw [icsState_none args ctx fn ck cr s hmt, chkStep_older]

theorem icsState_older_some (args : Args) (ctx : FileCtx) (fn ck : String)
    (cr : Nat) (s : RunState) {mt : Nat} (hmt : ctx.mtime = some mt) :
    (icsState args ctx fn ck cr s).older_date_files =
      if cr < mt then s.older_date_files ++ [fn] else s.older_date_files := by
  rw [icsState_some args ctx fn ck cr s hmt]
  dsimp only
  rw [olderStep_older, chkStep_older]

theorem icsState_mongo_none (args : Args) (ctx : FileCtx) (fn ck : String)
    (cr : Nat) (s : RunState) (hmt : ctx.mtime = none) :
    (icsState args ctx fn ck cr s).all_files_mongo = s.all_files_mongo := by
  rw [icsState_none args ctx fn ck cr s hmt, chkStep_mongo]

theorem icsState_mongo_some (args : Args) (ctx : FileCtx) (fn ck : String)
    (cr : Nat) (s : RunState) {mt : Nat} (hmt : ctx.mtime = some mt) :
    (icsState args ctx fn ck cr s).all_files_mongo =
      eraseCat s.all_files_mongo fn := by
  rw [icsState_some args ctx fn ck cr s hmt]
  dsimp only
  rw [olderStep_mongo, chkStep_mongo]

/-! ## The shape of one `process_file` outcome -/

/-- Every run of `process_file` either raises with the globals untouched,
returns them untouched, appends the file's own name to exactly one of the
naming / epoch / missing lists, or takes the (possibly failing) in-catalog
branch. -/
theorem process_file_shape (args : Args) (nslce : NslceT) (ctx : FileCtx)
    (s : RunState) :
    process_file args nslce ctx s = .error s ∨
    process_file args nslce ctx s = .ok s ∨
    process_file args nslce ctx s = .ok (addNaming s (fileNameOf ctx.path)) ∨
    process_file args nslce ctx s = .ok (addEpoch s (fileNameOf ctx.path)) ∨
    process_file args nslce ctx s = .ok (addMissing s (fileNameOf ctx.path)) ∨
    ∃ ck cr, alook s.all_files_mongo (fileNameOf ctx.path) = some (ck, cr) ∧
      process_file args nslce ctx s =
        inCatalogStep args ctx (fileNameOf ctx.path) ck cr s := by
  unfold process_file
  dsimp only
  repeat' split
  all_goals
    first
      | exact Or.inl rfl
      | exact Or.inr (Or.inl rfl)
      | exact Or.inr (Or.inr (Or.inl rfl))
      | exact Or.inr (Or.inr (Or.inr (Or.inl rfl)))
      | exact Or.inr (Or.inr (Or.inr (Or.inr (Or.inl rfl))))
      | (refine Or.inr (Or.inr (Or.inr (Or.inr (Or.inr ⟨_, _, ?_, rfl⟩))))
         assumption)

/-! ## Per-visit effect on the globals -/

/-- One dispatched visit — exceptions swallowed, partial mutations kept —
is a no-op, one append of the file's own name, or the in-catalog
outcome. -/
theorem dispatch_shape (args : Args) (nslce : NslceT) (s : RunState) (ctx : FileCtx) :
    dispatchFile args nslce s ctx = s ∨
    dispatchFile args nslce s ctx = addNaming s (fileNameOf ctx.path) ∨
    dispatchFile args nslce s ctx = addEpoch s (fileNameOf ctx.path) ∨
    dispatchFile args nslce s ctx = addMissing s (fileNameOf ctx.path) ∨
    ∃ ck cr, alook s.all_files_mongo (fileNameOf ctx.path) = some (ck, cr) ∧
      dispatchFile args nslce s ctx =
        icsState args ctx (fileNameOf ctx.path) ck cr s := by
  rcases process_file_shape args nslce ctx s with h | h | h | h | h | ⟨ck, cr, hc, h⟩
  · exact Or.inl (by unfold dispatchFile; rw [h])
  · exact Or.inl (by unfold dispatchFile; rw [h])
  · exact Or.inr (Or.inl (by unfold dispatchFile; rw [h]))
  · exact Or.inr (Or.inr (Or.inl (by unfold dispatchFile; rw [h])))
  · exact Or.inr (Or.inr (Or.inr (Or.inl (by unfold dispatchFile; rw [h]))))
  · refine Or.inr (Or.inr (Or.inr (Or.inr ⟨ck, cr, hc, ?_⟩)))
    unfold dispatchFile icsState
    rw [h]

theorem dispatch_mongo (args : Args) (nslce : NslceT) (s : RunState) (ctx : FileCtx) :
    (dispatchFile args nslce s ctx).all_files_mongo = s.all_files_mongo ∨
    (dispatchFile args nslce s ctx).all_files_mongo =
      eraseCat s.all_files_mongo (fileNameOf ctx.path) := by
  rcases dispatch_shape args nslce s ctx with h | h | h | h | ⟨ck, cr, hc, h⟩
  · exact Or.inl (by rw [h]; try rfl)
  · exact Or.inl (by rw [h]; try rfl)
  · exact Or.inl (by rw [h]; try rfl)
  · exact Or.inl (by rw [h]; try rfl)
  · rw [h]
    rcases hmt : ctx.mtime with _ | mt
    · exact Or.inl (icsState_mongo_none args ctx _ ck cr s hmt)
    · exact Or.inr (icsState_mongo_some args ctx _ ck cr s hmt)

theorem catKeys_dispatch_subset (args : Args) (nslce : NslceT) (s : RunState)
    (ctx : FileCtx) {k : String}
    (h : k ∈ catKeys (dispatchFile args nslce s ctx).all_files_mongo) :
    k ∈ catKeys s.all_files_mongo := by
  rcases dispatch_mongo args nslce s ctx with heq | heq
  · exact heq ▸ h
  · exact (mem_catKeys_eraseCat.mp (heq ▸ h)).1

theorem catKeys_runWalk_subset (args : Args) (nslce : NslceT) (files : List FileCtx)
    (s : RunState) {k : String}
    (h : k ∈ catKeys (runWalk args nslce s files).all_files_mongo) :
    k ∈ catKeys s.all_files_mongo := by
  induction files generalizing s with
  | nil => exact h
  | cons ctx rest ih =>
    exact catKeys_dispatch_subset args nslce s ctx (ih _ h)

theorem dispatch_naming (args : Args) (nslce : NslceT) (s : RunState) (ctx : FileCtx) :
    (dispatchFile args nslce s ctx).inconsistent_file_naming = s.inconsistent_file_naming ∨
    (dispatchFile args nslce s ctx).inconsistent_file_naming =
      s.inconsistent_file_naming ++ [fileNameOf ctx.path] := by
  rcases dispatch_shape args nslce s ctx with h | h | h | h | ⟨ck, cr, hc, h⟩
  · exact Or.inl (by rw [h]; try rfl)
  · exact Or.inr (by rw [h]; try rfl)
  · exact Or.inl (by rw [h]; try rfl)
  · exact Or.inl (by rw [h]; try rfl)
  · exact Or.inl (by rw [h]; exact icsState_naming args ctx _ ck cr s)

theorem dispatch_epochL (args : Args) (nslce : NslceT) (s : RunState) (ctx : FileCtx) :
    (dispatchFile args nslce s ctx).inconsistent_epoch_files = s.inconsistent_epoch_files ∨
    (dispatchFile args nslce s ctx).inconsistent_epoch_files =
      s.inconsistent_epoch_files ++ [fileNameOf ctx.path] := by
  rcases dispatch_shape args nslce s ctx with h | h | h | h | ⟨ck, cr, hc, h⟩
  · exact Or.inl (by rw [h]; try rfl)
  · exact Or.inl (by rw [h]; try rfl)
  · exact Or.inr (by rw [h]; try rfl)
  · exact Or.inl (by rw [h]; try rfl)
  · exact Or.inl (by rw [h]; exact icsState_epochL args ctx _ ck cr s)

theorem dispatch_missing (args : Args) (nslce : NslceT) (s : RunState) (ctx : FileCtx) :
    (dispatchFile args nslce s ctx).missing_in_mongo_files = s.missing_in_mongo_files ∨
    (dispatchFile args nslce s ctx).missing_in_mongo_files =
      s.missing_in_mongo_files ++ [fileNameOf ctx.path] := by
  rcases dispatch_shape args nslce s ctx with h | h | h | h | ⟨ck, cr, hc, h⟩
  · exact Or.inl (by rw [h]; try rfl)
  · exact Or.inl (by rw [h]; try rfl)
  · exact Or.inl (by rw [h]; try rfl)
  · exact Or.inr (by rw [h]; try rfl)
  · exact Or.inl (by rw [h]; exact icsState_missing args ctx _ ck cr s)

theorem dispatch_chk (args : Args) (nslce : NslceT) (s : RunState) (ctx : FileCtx) :
    (dispatchFile args nslce s ctx).inconsistent_checksum_files = s.inconsistent_checksum_files ∨
    (dispatchFile args nslce s ctx).inconsistent_checksum_files =
      s.inconsistent_checksum_files ++ [fileNameOf ctx.path] := by
  rcases dispatch_shape args nslce s ctx with h | h | h | h | ⟨ck, cr, hc, h⟩
  · exact Or.inl (by rw [h]; try rfl)
  · exact Or.inl (by rw [h]; try rfl)
  · exact Or.inl (by rw [h]; try rfl)
  · exact Or.inl (by rw [h]; try rfl)
  · rw [h, icsState_chk]
    split
    · exact Or.inr rfl
    · exact Or.inl rfl

theorem dispatch_older (args : Args) (nslce : NslceT) (s : RunState) (ctx : FileCtx) :
    (dispatchFile args nslce s ctx).older_date_files = s.older_date_files ∨
    (dispatchFile args nslce s ctx).older_date_files =
      s.older_date_files ++ [fileNameOf ctx.path] := by
  rcases dispatch_shape args nslce s ctx with h | h | h | h | ⟨ck, cr, hc, h⟩
  · exact Or.inl (by rw [h]; try rfl)
  · exact Or.inl (by rw [h]; try rfl)
  · exact Or.inl (by rw [h]; try rfl)
  · exact Or.inl (by rw [h]; try rfl)
  · rw [h]
    rcases hmt : ctx.mtime with _ | mt
    · exact Or.inl (icsState_older_none args ctx _ ck cr s hmt)
    · rw [icsState_older_some args ctx _ ck cr s hmt]
      split
      · exact Or.inr rfl
      · exact Or.inl rfl

/-! ## Characterization of the epoch scan -/

/-- Both date strings of an epoch record parse. -/
def epochParses (e : String × String) : Prop :=
  (parseISODate e.1).isSome ∧ (parseISODate (effEnd e.2)).isSome

/-- The date `d` lies inside the epoch `e`, bounds inclusive, the empty end
replaced by the far-future sentinel. -/
def epochContainsP (e : String × String) (d : Date) : Prop :=
  ∃ st en, parseISODate e.1 = some st ∧ parseISODate (effEnd e.2) = some en ∧
    dateLe st d = true ∧ dateLe d en = true

theorem epochLoop_characterization (d : Date) (l : List (String × String))
    (h : ∀ e ∈ l, epochParses e) :
    ∃ b, epochLoop d l = .ok b ∧ (b = true ↔ ∃ e ∈ l, epochContainsP e d) := by
  induction l with
  | nil =>
    refine ⟨false, rfl, ?_⟩
    simp
  | cons e rest ih =>
    obtain ⟨es, en⟩ := e
    obtain ⟨hs, he⟩ := h (es, en) (List.mem_cons_self _ _)
    obtain ⟨st, hst⟩ := Option.isSome_iff_exists.mp hs
    obtain ⟨ed, hed⟩ := Option.isSome_iff_exists.mp he
    by_cases hc : dateLe st d && dateLe d ed
    · refine ⟨true, ?_, ?_⟩
      · unfold epochLoop
        rw [hst, hed]
        dsimp only
        rw [if_pos hc]
      · simp only [true_iff]
        refine ⟨(es, en), List.mem_cons_self _ _, st, ed, hst, hed, ?_, ?_⟩
        · exact (Bool.and_eq_true _ _ ▸ hc).1
        · exact (Bool.and_eq_true _ _ ▸ hc).2
    · obtain ⟨b, hb, hiff⟩ := ih (fun e' he' => h e' (List.mem_cons_of_mem _ he'))
      refine ⟨b, ?_, ?_⟩
      · unfold epochLoop
        rw [hst, hed]
        dsimp only
        rw [if_neg hc]
        exact hb
      · rw [hiff]
        constructor
        · rintro ⟨e', he', hcont⟩
          exact ⟨e', List.mem_cons_of_mem _ he', hcont⟩
        · rintro ⟨e', he', hcont⟩
          rcases List.mem_cons.mp he' with rfl | hmem
          · obtain ⟨st', en', hst', hed', h1, h2⟩ := hcont
            rw [hst] at hst'
            rw [hed] at hed'
            obtain rfl := Option.some.injEq .. ▸ hst'.symm
            obtain rfl := Option.some.injEq .. ▸ hed'.symm
            exact absurd (Bool.and_eq_true _ _ ▸ ⟨h1, h2⟩) hc
          · exact ⟨e', hmem, hcont⟩

example : parseISODate "2010-03-02T00:00:00" = some ⟨2010, 3, 2⟩ := by decide

example : parseYearJday (some "2015") (some "366") = some ⟨2016, 1, 1⟩ := by decide

example : parseYearJday (some "2015") (some "367") = none := by decide

example : parseYearJday (some "015") (some "100") = none := by decide

example : parseYearJday (some "9999") (some "366") = none := by decide

example : parseISODate "815-03-02" = none := by decide

example : parseISODate "0815-03-02" = some ⟨815, 3, 2⟩ := by decide

example : parseYearJday (some "2016") (some "366") = some ⟨2016, 12, 31⟩ := by decide

end WfcConsistency

namespace WfcConsistency

/-! ## Claim theorems -/

theorem dateLe_refl (a : Date) : dateLe a a = true := by
  simp [dateLe]

/-- C4: epoch containment uses inclusive bounds on both ends.  Given that
every epoch record of the list parses, the scan of `process_file` returns
(without raising) `true` exactly when some epoch satisfies
`start ≤ fileDate ≤ end` (the empty end replaced by the far-future
sentinel); the order of the epoch list never changes the returned value;
a date equal to an epoch's start or end is contained in that epoch, and a
date strictly outside either bound is not. -/
theorem C4_epoch_containment (d : Date) (l : List (String × String))
    (h : ∀ e ∈ l, epochParses e) :
    (∃ b, epochLoop d l = .ok b ∧ (b = true ↔ ∃ e ∈ l, epochContainsP e d)) ∧
    (∀ l', l.Perm l' → epochLoop d l' = epochLoop d l) ∧
    (∀ e ∈ l, ∀ st en, parseISODate e.1 = some st → parseISODate (effEnd e.2) = some en →
      dateLe st en = true → epochContainsP e st ∧ epochContainsP e en) ∧
    (∀ e ∈ l, ∀ st en, parseISODate e.1 = some st → parseISODate (effEnd e.2) = some en →
      ∀ d', dateLe st d' = false ∨ dateLe d' en = false → ¬ epochContainsP e d') := by
  refine ⟨epochLoop_characterization d l h, ?_, ?_, ?_⟩
  · intro l' hp
    obtain ⟨b, hb, hiff⟩ := epochLoop_characterization d l h
    obtain ⟨b', hb', hiff'⟩ :=
      epochLoop_characterization d l' (fun e he => h e (hp.mem_iff.mpr he))
    have hbb : b' = b := by
      have : b' = true ↔ b = true := by
        rw [hiff, hiff']
        constructor
        · rintro ⟨e, he, hc⟩
          exact ⟨e, hp.mem_iff.mpr he, hc⟩
        · rintro ⟨e, he, hc⟩
          exact ⟨e, hp.mem_iff.mp he, hc⟩
      cases b <;> cases b' <;> simp_all
    rw [hb, hb', hbb]
  · intro e _ st en h1 h2 hse
    exact ⟨⟨st, en, h1, h2, dateLe_refl st, hse⟩, ⟨st, en, h1, h2, hse, dateLe_refl en⟩⟩
  · intro e _ st en h1 h2 d' hout hc
    obtain ⟨st', en', h1', h2', hle1, hle2⟩ := hc
    rw [h1] at h1'
    rw [h2] at h2'
    obtain rfl : st = st' := by injection h1'
    obtain rfl : en = en' := by injection h2'
    rcases hout with hf | hf
    · rw [hle1] at hf
      exact Bool.true_eq_false ▸ hf |>.elim
    · rw [hle2] at hf
      exact Bool.true_eq_false ▸ hf |>.elim

/-- C4 witness: the single open-ended epoch starting 2010-03-02 contains
its own start date, so the scan returns `.ok true` there. -/
theorem C4_epoch_containment_witness :
    (∀ e ∈ [("2010-03-02T00:00:00", "")], epochParses e) ∧
    epochLoop ⟨2010, 3, 2⟩ [("2010-03-02T00:00:00", "")] = .ok true := by
  have h : ∀ e ∈ [("2010-03-02T00:00:00", "")], epochParses e := by
    intro e he
    simp only [List.mem_singleton] at he
    subst he
    constructor <;> decide
  refine ⟨h, ?_⟩
  obtain ⟨⟨b, hb, hiff⟩, -, -, -⟩ := C4_epoch_containment ⟨2010, 3, 2⟩ _ h
  have hbt : b = true := hiff.mpr
    ⟨("2010-03-02T00:00:00", ""), by decide,
      ⟨2010, 3, 2⟩, ⟨2200, 1, 1⟩, by decide, by decide, by decide, by decide⟩
  rw [hbt] at hb
  exact hb

/-- The path of a file whose base name has three dot fields but a parseable
trailing `YEAR.JDAY` pair. -/
def ctx3 : FileCtx :=
  { path := "/data/2015/AB/CD/HHZ.D/AB.2015.100", md5 := none, mtime := some 0 }

/-- A metadata index knowing network `AB`, station `CD`, location `""`,
channel `HHZ`. -/
def nslce3 : NslceT :=
  [("AB", [("CD", [("", [("HHZ", [("2010-03-02T00:00:00", "")])])])])]

def args3 : Args := { startY := 2015, endY := 2015, exclude := none, checksum := false }

def state3 : RunState :=
  { all_files_mongo := [("AB.2015.100", ("abc", 10))]
    inconsistent_epoch_files := []
    inconsistent_file_naming := []
    missing_in_mongo_files := []
    inconsistent_checksum_files := []
    older_date_files := [] }

/-- C3: refuted at `AB.2015.100`.  The name has three dot fields, not
seven, yet its trailing `2015.100` parses, so the naming check passes and
the file is NOT classified `INAPPROPRIATE_NAMING`: `parts[2] = "100"` is
not a known location, so the file is silently dropped with the state
untouched. -/
theorem C3_wrong_field_count_not_flagged :
    pySplit (fileNameOf ctx3.path) '.' = ["AB", "2015", "100"] ∧
    parseYearJday (some "2015") (some "100") = some ⟨2015, 4, 10⟩ ∧
    process_file args3 nslce3 ctx3 state3 = .ok state3 ∧
    (dispatchFile args3 nslce3 state3 ctx3).inconsistent_file_naming = [] := by
  refine ⟨by decide, by decide, by rfl, by rfl⟩

/-- The path of a file whose base name has only two dot fields, both of
which parse as the `YEAR.JDAY` pair. -/
def ctx10 : FileCtx :=
  { path := "/data/2015/AB/CD/HHZ.D/2015.100", md5 := none, mtime := some 0 }

/-- C10: the base name `2015.100` has fewer than seven dot fields but its
final two fields parse as year 2015, Julian day 100, so the naming check
passes; the positional access `parts[2]` then raises `IndexError`
(`Except.error ()`) for every index, option set and state, and since the
thread pool's futures are never read the exception is discarded: the
dispatched visit leaves every collection, including
`inconsistent_file_naming`, and the catalog exactly as they were. -/
theorem C10_short_name_index_error (args : Args) (nslce : NslceT) (s : RunState) :
    pySplit (fileNameOf ctx10.path) '.' = ["2015", "100"] ∧
    parseYearJday (pyGetNeg (pySplit (fileNameOf ctx10.path) '.') 2)
      (pyGetNeg (pySplit (fileNameOf ctx10.path) '.') 1) = some ⟨2015, 4, 10⟩ ∧
    pyGet (pySplit (fileNameOf ctx10.path) '.') 2 = none ∧
    process_file args nslce ctx10 s = .error s ∧
    dispatchFile args nslce s ctx10 = s := by
  refine ⟨by decide, by decide, by decide, rfl, ?_⟩
  unfold dispatchFile
  rfl

end WfcConsistency

namespace WfcConsistency

/-- C9: a file with a parseable name whose location/channel pair (taken
from the name) is missing from the epoch lookup under the directory's
network and station is placed in none of the six categories: the state —
the five lists and the catalog — is returned unchanged (the `if` at line
277 falls through with no `else`). -/
theorem C9_missing_pair_not_classified (args : Args) (nslce : NslceT)
    (ctx : FileCtx) (s : RunState) (d : Date) (loc cha net sta : String)
    (staL : StaL) (locCh : LocCh)
    (hname : parseYearJday (pyGetNeg (pySplit (fileNameOf ctx.path) '.') 2)
      (pyGetNeg (pySplit (fileNameOf ctx.path) '.') 1) = some d)
    (hloc : pyGet (pySplit (fileNameOf ctx.path) '.') 2 = some loc)
    (hcha : pyGet (pySplit (fileNameOf ctx.path) '.') 3 = some cha)
    (hnet : pyGetNeg (pySplit ctx.path '/') 4 = some net)
    (hsta : pyGetNeg (pySplit ctx.path '/') 3 = some sta)
    (hn : alook nslce net = some staL)
    (hs : alook staL sta = some locCh)
    (habs : ∀ chEp, alook locCh loc = some chEp → alook chEp cha = none) :
    process_file args nslce ctx s = .ok s := by
  simp only [fileNameOf] at hname hloc hcha
  unfold process_file
  dsimp only
  rw [hname]
  dsimp only
  rw [hloc]
  dsimp only
  rw [hnet, hsta]
  dsimp only
  rw [hn]
  dsimp only
  rw [hs]
  dsimp only
  rcases hlc : alook locCh loc with _ | chEp
  · rfl
  · simp only [Option.isSome_some, Option.getD_some, if_true, hcha, habs chEp hlc]
    rfl

/-- C9 witness: `HL.ATH.99.HHZ.D.2015.100` under `HL/ATH` where location
`99` is not in the index: silently excluded, state unchanged. -/
theorem C9_missing_pair_not_classified_witness :
    alook [("00", [("HHZ", [("2010-03-02T00:00:00", "")])])] "99" = (none : Option ChEp) ∧
    process_file argsEx nslceEx
      { path := "/data/2015/HL/ATH/HHZ.D/HL.ATH.99.HHZ.D.2015.100", md5 := some "abc123", mtime := some 50 }
      stateEx = .ok stateEx := by
  refine ⟨by decide, ?_⟩
  exact C9_missing_pair_not_classified argsEx nslceEx _ stateEx ⟨2015, 4, 10⟩
    "99" "HHZ" "HL" "ATH" [("ATH", [("00", [("HHZ", [("2010-03-02T00:00:00", "")])])])]
    [("00", [("HHZ", [("2010-03-02T00:00:00", "")])])]
    (by decide) (by decide) (by decide) (by decide) (by decide)
    (by decide) (by decide) (by intro chEp hc; simp [alook] at hc)

/-- A metadata index with network `AB` present. -/
def nslce5 : NslceT :=
  [("AB", [("CD", [("", [("HHZ", [("2010-03-02T00:00:00", "")])])])])]

def args5 : Args := { startY := 2015, endY := 2015, exclude := some "ABC", checksum := false }

/-- C5: refuted for the exclusion condition.  With `-x ABC`, the walker's
test `network not in args.exclude` is Python substring containment on the
raw option string, so network `AB` — present in the metadata index and NOT
a member of the exclusion list `["ABC"]` — is pruned, while the
list-membership reading of the claim (and the `split(',')` used by
`getFromDB`) admits it. -/
theorem C5_network_exclusion_substring :
    networkAdmit nslce5 args5 "AB" = false ∧
    pySubstr "AB" "ABC" = true ∧
    excludeList (some "ABC") = ["ABC"] ∧
    ("AB" ∈ excludeList (some "ABC")) = False ∧
    networkAdmitSpec nslce5 (some "ABC") "AB" = true ∧
    walkAdmits args5 nslce5 "2015" "AB" "CD" "HHZ.D" = .ok false := by
  refine ⟨by decide, by decide, by decide, by simp [excludeList, pySplit, splitCh], by decide, by rfl⟩

/-- C8: refuted at the year level.  Counterexample: a year-directory entry
named `lost+found` makes `int(year)` raise an uncaught `ValueError`, which
terminates the whole walk — so it is not the case that every per-directory
error is contained. -/
theorem C8_counterexample :
    pyInt "lost+found" = none ∧
    yearAdmit { startY := 2015, endY := 2015, exclude := none, checksum := false }
      "lost+found" = .error () := by
  exact ⟨by decide, by rfl⟩

/-- C8 amended: errors raised while processing a single file never
terminate the walk — the pool discards every worker exception, and the
walk continues from the globals as the worker left them: unchanged for
every failure point before the in-catalog branch, and, when
`os.path.getmtime` raises inside it, with the already-made checksum append
kept and no other change.  Every dispatched visit is thus a no-op, one
append of the file's own name, or the in-catalog outcome `icsState`.  A
directory-level error, however (a non-numeric year directory name at line
321), is uncaught and propagates out of the walk. -/
theorem C8_amended_containment :
    (∀ (args : Args) (nslce : NslceT) (ctx : FileCtx) (s : RunState),
      dispatchFile args nslce s ctx = s ∨
      dispatchFile args nslce s ctx = addNaming s (fileNameOf ctx.path) ∨
      dispatchFile args nslce s ctx = addEpoch s (fileNameOf ctx.path) ∨
      dispatchFile args nslce s ctx = addMissing s (fileNameOf ctx.path) ∨
      ∃ ck cr, alook s.all_files_mongo (fileNameOf ctx.path) = some (ck, cr) ∧
        dispatchFile args nslce s ctx =
          icsState args ctx (fileNameOf ctx.path) ck cr s) ∧
    (∃ y, pyInt y = none ∧ ∀ args : Args, yearAdmit args y = .error ()) := by
  constructor
  · intro args nslce ctx s
    exact dispatch_shape args nslce s ctx
  · refine ⟨"lost+found", by decide, fun args => ?_⟩
    unfold yearAdmit
    rfl

end WfcConsistency

namespace WfcConsistency

/-- Under the hypotheses that the name parses, the location/channel pair is
found under the directory-derived network/station, the epoch scan accepts,
and the name is in the catalog, `process_file` takes the in-catalog branch. -/
theorem process_file_in_catalog (args : Args) (nslce : NslceT)
    (ctx : FileCtx) (s : RunState) (d : Date) (loc cha net sta : String)
    (staL : StaL) (locCh : LocCh) (chEp : ChEp)
    (epochs : List (String × String)) (ck : String) (cr : Nat)
    (hname : parseYearJday (pyGetNeg (pySplit (fileNameOf ctx.path) '.') 2)
      (pyGetNeg (pySplit (fileNameOf ctx.path) '.') 1) = some d)
    (hloc : pyGet (pySplit (fileNameOf ctx.path) '.') 2 = some loc)
    (hcha : pyGet (pySplit (fileNameOf ctx.path) '.') 3 = some cha)
    (hnet : pyGetNeg (pySplit ctx.path '/') 4 = some net)
    (hsta : pyGetNeg (pySplit ctx.path '/') 3 = some sta)
    (hn : alook nslce net = some staL)
    (hs : alook staL sta = some locCh)
    (hlc : alook locCh loc = some chEp)
    (hce : alook chEp cha = some epochs)
    (hloop : epochLoop d epochs = .ok true)
    (hcat : alook s.all_files_mongo (fileNameOf ctx.path) = some (ck, cr)) :
    process_file args nslce ctx s =
      inCatalogStep args ctx (fileNameOf ctx.path) ck cr s := by
  simp only [fileNameOf] at hname hloc hcha hcat ⊢
  unfold process_file
  dsimp only
  rw [hname]
  dsimp only
  rw [hloc]
  dsimp only
  rw [hnet, hsta]
  dsimp only
  rw [hn]
  dsimp only
  rw [hs]
  dsimp only
  simp only [hlc, Option.isSome_some, Option.getD_some, if_true, hcha]
  simp only [hce, Option.isSome_some, Option.getD_some, if_true]
  rw [hloop]
  simp only [Bool.not_true, Bool.false_eq_true, if_false]
  rw [hcat]

/-- C1: a file whose parsed date falls inside some epoch of its
location/channel list and whose catalog record carries exactly the file's
computed hash and a `createdAt` not earlier than the on-disk modification
time is appended to none of the five result lists (the returned state
changes only the catalog), its key is deleted from the catalog, and it can
never reappear there during the remaining walk — so it is absent from the
residual `REMOVE_FROM_CATALOG` set. -/
theorem C1_consistent_file (args : Args) (nslce : NslceT)
    (ctx : FileCtx) (s : RunState) (d : Date) (loc cha net sta : String)
    (staL : StaL) (locCh : LocCh) (chEp : ChEp)
    (epochs : List (String × String)) (ck : String) (cr : Nat)
    (hname : parseYearJday (pyGetNeg (pySplit (fileNameOf ctx.path) '.') 2)
      (pyGetNeg (pySplit (fileNameOf ctx.path) '.') 1) = some d)
    (hloc : pyGet (pySplit (fileNameOf ctx.path) '.') 2 = some loc)
    (hcha : pyGet (pySplit (fileNameOf ctx.path) '.') 3 = some cha)
    (hnet : pyGetNeg (pySplit ctx.path '/') 4 = some net)
    (hsta : pyGetNeg (pySplit ctx.path '/') 3 = some sta)
    (hn : alook nslce net = some staL)
    (hs : alook staL sta = some locCh)
    (hlc : alook locCh loc = some chEp)
    (hce : alook chEp cha = some epochs)
    (hwf : ∀ e ∈ epochs, epochParses e)
    (hex : ∃ e ∈ epochs, epochContainsP e d)
    (hcat : alook s.all_files_mongo (fileNameOf ctx.path) = some (ck, cr))
    (hmd5 : ctx.md5 = some ck)
    (mt : Nat) (hmtime : ctx.mtime = some mt)
    (hmt : ¬ cr < mt) :
    process_file args nslce ctx s =
      .ok { s with all_files_mongo := eraseCat s.all_files_mongo (fileNameOf ctx.path) } ∧
    fileNameOf ctx.path ∉ catKeys (eraseCat s.all_files_mongo (fileNameOf ctx.path)) ∧
    ∀ rest, fileNameOf ctx.path ∉ catKeys (runWalk args nslce
      { s with all_files_mongo := eraseCat s.all_files_mongo (fileNameOf ctx.path) }
      rest).all_files_mongo := by
  have hloop : epochLoop d epochs = .ok true := by
    obtain ⟨b, hb, hiff⟩ := epochLoop_characterization d epochs hwf
    rw [hiff.mpr hex] at hb
    exact hb
  have hpf := process_file_in_catalog args nslce ctx s d loc cha net sta staL locCh
    chEp epochs ck cr hname hloc hcha hnet hsta hn hs hlc hce hloop hcat
  have hstep : inCatalogStep args ctx (fileNameOf ctx.path) ck cr s =
      .ok { s with all_files_mongo := eraseCat s.all_files_mongo (fileNameOf ctx.path) } := by
    unfold inCatalogStep chkStep olderStep
    rw [hmd5, hmtime]
    simp [hmt]
  refine ⟨hpf.trans hstep, not_mem_catKeys_eraseCat_self, ?_⟩
  intro rest hmem
  exact not_mem_catKeys_eraseCat_self (catKeys_runWalk_subset args nslce rest _ hmem)

/-- C1 witness: `HL.ATH.00.HHZ.D.2015.100` inside the open `HL.ATH.00.HHZ`
epoch, present in the catalog with matching checksum `abc123` and
`createdAt` 100 ≥ mtime 50: no list grows and the record is deleted. -/
theorem C1_consistent_file_witness :
    ctxEx.md5 = some "abc123" ∧ ctxEx.mtime = some 50 ∧ ¬ (100 : Nat) < 50 ∧
    process_file argsEx nslceEx ctxEx stateEx =
      .ok { stateEx with all_files_mongo := eraseCat stateEx.all_files_mongo (fileNameOf ctxEx.path) } ∧
    fileNameOf ctxEx.path ∉ catKeys (eraseCat stateEx.all_files_mongo (fileNameOf ctxEx.path)) := by
  have h := C1_consistent_file argsEx nslceEx ctxEx stateEx ⟨2015, 4, 10⟩
    "00" "HHZ" "HL" "ATH"
    [("ATH", [("00", [("HHZ", [("2010-03-02T00:00:00", "")])])])]
    [("00", [("HHZ", [("2010-03-02T00:00:00", "")])])]
    [("HHZ", [("2010-03-02T00:00:00", "")])]
    [("2010-03-02T00:00:00", "")] "abc123" 100
    (by decide) (by decide) (by decide) (by decide) (by decide)
    (by decide) (by decide) (by decide) (by decide)
    (by intro e he; simp only [List.mem_singleton] at he; subst he
        exact ⟨by decide, by decide⟩)
    ⟨("2010-03-02T00:00:00", ""), by decide,
      ⟨2010, 3, 2⟩, ⟨2200, 1, 1⟩, by decide, by decide, by decide, by decide⟩
    (by decide) (by decide) 50 (by decide) (by decide)
  exact ⟨by decide, by decide, by decide, h.1, h.2.1⟩

/-- C6: refuted.  For a file in the in-catalog branch whose content cannot
be read (`getMD5Hash` returns `None`), the code does NOT exclude it:
`None != chksm` is `True`, so with `-c` the file lands in
`inconsistent_checksum_files`, and its catalog entry is still deleted. -/
theorem C6_counterexample :
    process_file argsEx nslceEx { ctxEx with md5 := none } stateEx =
      .ok { stateEx with all_files_mongo := [], inconsistent_checksum_files := ["HL.ATH.00.HHZ.D.2015.100"] } ∧
    "HL.ATH.00.HHZ.D.2015.100" ∉ catKeys ([] : Catalog) := by
  exact ⟨by rfl, by decide⟩

/-- C6 amended: a checksum-computation failure is non-fatal for the run
but the file is NOT excluded from classification: when checksum
verification is enabled and the file reaches the in-catalog branch, it is
appended to `INCONSISTENT_CHECKSUM` (`None != chksm` is `True`).  Then,
if the modification time can still be read, the older-date check runs and
the catalog entry is removed; if `os.path.getmtime` itself raises (the
canonical unreadable file — deleted after `os.listdir`), the worker dies
after the append, the catalog entry is NOT removed, and the name stays
behind in the catalog (hence in the residual `REMOVE_FROM_CATALOG` set if
never matched later). -/
theorem C6_amended_unreadable_flagged (args : Args) (nslce : NslceT)
    (ctx : FileCtx) (s : RunState) (d : Date) (loc cha net sta : String)
    (staL : StaL) (locCh : LocCh) (chEp : ChEp)
    (epochs : List (String × String)) (ck : String) (cr : Nat)
    (hname : parseYearJday (pyGetNeg (pySplit (fileNameOf ctx.path) '.') 2)
      (pyGetNeg (pySplit (fileNameOf ctx.path) '.') 1) = some d)
    (hloc : pyGet (pySplit (fileNameOf ctx.path) '.') 2 = some loc)
    (hcha : pyGet (pySplit (fileNameOf ctx.path) '.') 3 = some cha)
    (hnet : pyGetNeg (pySplit ctx.path '/') 4 = some net)
    (hsta : pyGetNeg (pySplit ctx.path '/') 3 = some sta)
    (hn : alook nslce net = some staL)
    (hs : alook staL sta = some locCh)
    (hlc : alook locCh loc = some chEp)
    (hce : alook chEp cha = some epochs)
    (hwf : ∀ e ∈ epochs, epochParses e)
    (hex : ∃ e ∈ epochs, epochContainsP e d)
    (hcat : alook s.all_files_mongo (fileNameOf ctx.path) = some (ck, cr))
    (hmd5 : ctx.md5 = none)
    (hchk : args.checksum = true) :
    (∀ mt, ctx.mtime = some mt →
      ∃ s', process_file args nslce ctx s = .ok s' ∧
        fileNameOf ctx.path ∈ s'.inconsistent_checksum_files ∧
        fileNameOf ctx.path ∉ catKeys s'.all_files_mongo) ∧
    (ctx.mtime = none →
      ∃ s', process_file args nslce ctx s = .error s' ∧
        fileNameOf ctx.path ∈ s'.inconsistent_checksum_files ∧
        s'.all_files_mongo = s.all_files_mongo ∧
        fileNameOf ctx.path ∈ catKeys s'.all_files_mongo) := by
  have hloop : epochLoop d epochs = .ok true := by
    obtain ⟨b, hb, hiff⟩ := epochLoop_characterization d epochs hwf
    rw [hiff.mpr hex] at hb
    exact hb
  have hpf := process_file_in_catalog args nslce ctx s d loc cha net sta staL locCh
    chEp epochs ck cr hname hloc hcha hnet hsta hn hs hlc hce hloop hcat
  have hchkmem : fileNameOf ctx.path ∈
      (icsState args ctx (fileNameOf ctx.path) ck cr s).inconsistent_checksum_files := by
    rw [icsState_chk, hmd5, hchk]
    simp
  constructor
  · intro mt hmt
    refine ⟨icsState args ctx (fileNameOf ctx.path) ck cr s,
      hpf.trans (inCatalogStep_eq_ok args ctx _ ck cr s hmt), hchkmem, ?_⟩
    rw [icsState_mongo_some args ctx _ ck cr s hmt]
    exact not_mem_catKeys_eraseCat_self
  · intro hmt
    refine ⟨icsState args ctx (fileNameOf ctx.path) ck cr s,
      hpf.trans (inCatalogStep_eq_error args ctx _ ck cr s hmt), hchkmem,
      icsState_mongo_none args ctx _ ck cr s hmt, ?_⟩
    rw [icsState_mongo_none args ctx _ ck cr s hmt]
    exact alook_eq_some_mem_catKeys hcat

/-- C6 amended witness: the consistent fixture with the content made
unreadable (`md5 = none`).  With the mtime readable the file lands in the
checksum list and its catalog record is deleted; with the mtime read also
failing the worker dies after the append and the record survives. -/
theorem C6_amended_unreadable_flagged_witness :
    argsEx.checksum = true ∧
    (∃ s', process_file argsEx nslceEx { ctxEx with md5 := none } stateEx = .ok s' ∧
      fileNameOf ctxEx.path ∈ s'.inconsistent_checksum_files ∧
      fileNameOf ctxEx.path ∉ catKeys s'.all_files_mongo) ∧
    (∃ s', process_file argsEx nslceEx { ctxEx with md5 := none, mtime := none } stateEx =
        .error s' ∧
      fileNameOf ctxEx.path ∈ s'.inconsistent_checksum_files ∧
      fileNameOf ctxEx.path ∈ catKeys s'.all_files_mongo) := by
  refine ⟨by decide, ?_, ?_⟩
  · exact (C6_amended_unreadable_flagged argsEx nslceEx { ctxEx with md5 := none } stateEx
      ⟨2015, 4, 10⟩ "00" "HHZ" "HL" "ATH"
      [("ATH", [("00", [("HHZ", [("2010-03-02T00:00:00", "")])])])]
      [("00", [("HHZ", [("2010-03-02T00:00:00", "")])])]
      [("HHZ", [("2010-03-02T00:00:00", "")])]
      [("2010-03-02T00:00:00", "")] "abc123" 100
      (by decide) (by decide) (by decide) (by decide) (by decide)
      (by decide) (by decide) (by decide) (by decide)
      (by intro e he; simp only [List.mem_singleton] at he; subst he
          exact ⟨by decide, by decide⟩)
      ⟨("2010-03-02T00:00:00", ""), by decide,
        ⟨2010, 3, 2⟩, ⟨2200, 1, 1⟩, by decide, by decide, by decide, by decide⟩
      (by decide) (by decide) (by decide)).1 50 (by decide)
  · obtain ⟨s', h1, h2, h3, h4⟩ :=
      (C6_amended_unreadable_flagged argsEx nslceEx
        { ctxEx with md5 := none, mtime := none } stateEx
        ⟨2015, 4, 10⟩ "00" "HHZ" "HL" "ATH"
        [("ATH", [("00", [("HHZ", [("2010-03-02T00:00:00", "")])])])]
        [("00", [("HHZ", [("2010-03-02T00:00:00", "")])])]
        [("HHZ", [("2010-03-02T00:00:00", "")])]
        [("2010-03-02T00:00:00", "")] "abc123" 100
        (by decide) (by decide) (by decide) (by decide) (by decide)
        (by decide) (by decide) (by decide) (by decide)
        (by intro e he; simp only [List.mem_singleton] at he; subst he
            exact ⟨by decide, by decide⟩)
        ⟨("2010-03-02T00:00:00", ""), by decide,
          ⟨2010, 3, 2⟩, ⟨2200, 1, 1⟩, by decide, by decide, by decide, by decide⟩
        (by decide) (by decide) (by decide)).2 (by decide)
    exact ⟨s', h1, h2, h4⟩

end WfcConsistency

namespace WfcConsistency

/-- C2: after the walk, a key remains in the catalog dictionary (and is
hence written to `remove_from_wfcatalog`) exactly when it was a key of the
initial time/network-scoped catalog and was never matched — deleted by the
present-with-matching-epoch branch — during the walk: the residual set is
the set difference of the scoped catalog keys and the matched keys. -/
theorem C2_residual_set (args : Args) (nslce : NslceT) (files : List FileCtx)
    (s0 : RunState) (k : String) :
    k ∈ catKeys (runWalk args nslce s0 files).all_files_mongo ↔
      k ∈ catKeys s0.all_files_mongo ∧ k ∉ matchedKeys args nslce s0 files := by
  induction files generalizing s0 with
  | nil =>
    show k ∈ catKeys s0.all_files_mongo ↔
      k ∈ catKeys s0.all_files_mongo ∧ k ∉ ([] : List String)
    simp
  | cons ctx rest ih =>
    show k ∈ catKeys (runWalk args nslce (dispatchFile args nslce s0 ctx) rest).all_files_mongo ↔
      k ∈ catKeys s0.all_files_mongo ∧
        k ∉ (if stepRemoved args nslce s0 ctx then [fileNameOf ctx.path] else []) ++
          matchedKeys args nslce (dispatchFile args nslce s0 ctx) rest
    rcases dispatch_mongo args nslce s0 ctx with heq | heq
    · have hsr : stepRemoved args nslce s0 ctx = false := by
        unfold stepRemoved
        rw [heq]
        exact Bool.and_not_self _
      rw [hsr, if_neg (by simp), List.nil_append, ih, heq]
    · by_cases hfn : fileNameOf ctx.path ∈ catKeys s0.all_files_mongo
      · have hsr : stepRemoved args nslce s0 ctx = true := by
          unfold stepRemoved
          rw [heq]
          simp [hfn, not_mem_catKeys_eraseCat_self]
        rw [hsr, if_pos rfl, List.singleton_append, ih, heq, mem_catKeys_eraseCat,
          List.mem_cons]
        tauto
      · have hmongo : (dispatchFile args nslce s0 ctx).all_files_mongo = s0.all_files_mongo := by
          rw [heq, eraseCat_of_not_mem hfn]
        have hsr : stepRemoved args nslce s0 ctx = false := by
          unfold stepRemoved
          rw [hmongo]
          exact Bool.and_not_self _
        rw [hsr, if_neg (by simp), List.nil_append, ih, hmongo]

end WfcConsistency

namespace WfcConsistency

/-- `N` occurs in none of the five result lists. -/
def noneListed (s : RunState) (N : String) : Prop :=
  N ∉ s.inconsistent_file_naming ∧ N ∉ s.inconsistent_epoch_files ∧
  N ∉ s.missing_in_mongo_files ∧ N ∉ s.inconsistent_checksum_files ∧
  N ∉ s.older_date_files

/-- `N` occurs in at most one of the five result lists, except that the
checksum and older-date lists may both hold it. -/
def exclusiveFive (s : RunState) (N : String) : Prop :=
  (N ∈ s.inconsistent_file_naming →
    N ∉ s.inconsistent_epoch_files ∧ N ∉ s.missing_in_mongo_files ∧
    N ∉ s.inconsistent_checksum_files ∧ N ∉ s.older_date_files) ∧
  (N ∈ s.inconsistent_epoch_files →
    N ∉ s.missing_in_mongo_files ∧ N ∉ s.inconsistent_checksum_files ∧
    N ∉ s.older_date_files) ∧
  (N ∈ s.missing_in_mongo_files →
    N ∉ s.inconsistent_checksum_files ∧ N ∉ s.older_date_files)

/-- If `N` is in the checksum or older-date list, its key is gone from the
catalog dictionary (so it cannot be `REMOVE_FROM_CATALOG`). -/
def chkOlderRemoved (s : RunState) (N : String) : Prop :=
  (N ∈ s.inconsistent_checksum_files ∨ N ∈ s.older_date_files) →
    N ∉ catKeys s.all_files_mongo

/-- A visit never changes membership of any other name in any of the five
lists. -/
theorem dispatch_mem_ne (args : Args) (nslce : NslceT) (s : RunState)
    (ctx : FileCtx) {N : String} (hne : N ≠ fileNameOf ctx.path) :
    (N ∈ (dispatchFile args nslce s ctx).inconsistent_file_naming ↔
      N ∈ s.inconsistent_file_naming) ∧
    (N ∈ (dispatchFile args nslce s ctx).inconsistent_epoch_files ↔
      N ∈ s.inconsistent_epoch_files) ∧
    (N ∈ (dispatchFile args nslce s ctx).missing_in_mongo_files ↔
      N ∈ s.missing_in_mongo_files) ∧
    (N ∈ (dispatchFile args nslce s ctx).inconsistent_checksum_files ↔
      N ∈ s.inconsistent_checksum_files) ∧
    (N ∈ (dispatchFile args nslce s ctx).older_date_files ↔
      N ∈ s.older_date_files) := by
  refine ⟨?_, ?_, ?_, ?_, ?_⟩
  · rcases dispatch_naming args nslce s ctx with h | h
    · rw [h]
    · rw [h]
      simp [hne]
  · rcases dispatch_epochL args nslce s ctx with h | h
    · rw [h]
    · rw [h]
      simp [hne]
  · rcases dispatch_missing args nslce s ctx with h | h
    · rw [h]
    · rw [h]
      simp [hne]
  · rcases dispatch_chk args nslce s ctx with h | h
    · rw [h]
    · rw [h]
      simp [hne]
  · rcases dispatch_older args nslce s ctx with h | h
    · rw [h]
    · rw [h]
      simp [hne]

/-- A visit of a file whose name is in none of the five lists, and whose
modification-time read succeeds if reached, leaves that name exclusive
(at most one list, checksum/older pair allowed) and, if it entered the
checksum or older list, out of the catalog. -/
theorem dispatch_own_clean (args : Args) (nslce : NslceT) (s : RunState)
    (ctx : FileCtx) (hmt : ctx.mtime ≠ none)
    (hcl : noneListed s (fileNameOf ctx.path)) :
    exclusiveFive (dispatchFile args nslce s ctx) (fileNameOf ctx.path) ∧
    chkOlderRemoved (dispatchFile args nslce s ctx) (fileNameOf ctx.path) := by
  obtain ⟨h1, h2, h3, h4, h5⟩ := hcl
  rcases dispatch_shape args nslce s ctx with hd | hd | hd | hd | ⟨ck, cr, hcat, hd⟩ <;>
    rw [hd]
  · exact ⟨⟨fun hm => absurd hm h1, fun hm => absurd hm h2, fun hm => absurd hm h3⟩,
      fun hm => hm.elim (fun hc => absurd hc h4) (fun hc => absurd hc h5)⟩
  · refine ⟨⟨fun _ => ⟨h2, h3, h4, h5⟩, fun hm => absurd hm h2, fun hm => absurd hm h3⟩,
      fun hm => hm.elim (fun hc => absurd hc h4) (fun hc => absurd hc h5)⟩
  · exact ⟨⟨fun hm => absurd hm h1, fun _ => ⟨h3, h4, h5⟩, fun hm => absurd hm h3⟩,
      fun hm => hm.elim (fun hc => absurd hc h4) (fun hc => absurd hc h5)⟩
  · exact ⟨⟨fun hm => absurd hm h1, fun hm => absurd hm h2, fun _ => ⟨h4, h5⟩⟩,
      fun hm => hm.elim (fun hc => absurd hc h4) (fun hc => absurd hc h5)⟩
  · obtain ⟨mt, hmt'⟩ := Option.ne_none_iff_exists'.mp hmt
    refine ⟨⟨fun hm => ?_, fun hm => ?_, fun hm => ?_⟩, fun _ => ?_⟩
    · rw [icsState_naming] at hm
      exact absurd hm h1
    · rw [icsState_epochL] at hm
      exact absurd hm h2
    · rw [icsState_missing] at hm
      exact absurd hm h3
    · rw [icsState_mongo_some args ctx _ ck cr s hmt']
      exact not_mem_catKeys_eraseCat_self

theorem c7_aux (args : Args) (nslce : NslceT) :
    ∀ (files : List FileCtx) (s : RunState),
    (files.map (fun ctx => fileNameOf ctx.path)).Nodup →
    (∀ ctx ∈ files, ctx.mtime ≠ none) →
    (∀ N, exclusiveFive s N ∧ chkOlderRemoved s N) →
    (∀ N, N ∈ files.map (fun ctx => fileNameOf ctx.path) → noneListed s N) →
    ∀ N, exclusiveFive (runWalk args nslce s files) N ∧
      chkOlderRemoved (runWalk args nslce s files) N := by
  intro files
  induction files with
  | nil => exact fun s _ _ hinv _ => hinv
  | cons ctx rest ih =>
    intro s hdist hmts hinv hclean
    have hf : fileNameOf ctx.path ∉ rest.map (fun c => fileNameOf c.path) :=
      (List.nodup_cons.mp hdist).1
    have hdist' : (rest.map (fun c => fileNameOf c.path)).Nodup :=
      (List.nodup_cons.mp hdist).2
    show ∀ N, exclusiveFive (runWalk args nslce (dispatchFile args nslce s ctx) rest) N ∧
      chkOlderRemoved (runWalk args nslce (dispatchFile args nslce s ctx) rest) N
    apply ih (dispatchFile args nslce s ctx) hdist'
      (fun c hc => hmts c (List.mem_cons_of_mem _ hc))
    · intro N
      by_cases hN : N = fileNameOf ctx.path
      · subst hN
        exact dispatch_own_clean args nslce s ctx
          (hmts ctx (List.mem_cons_self _ _))
          (hclean (fileNameOf ctx.path) (by simp))
      · obtain ⟨e1, e2, e3, e4, e5⟩ := dispatch_mem_ne args nslce s ctx hN
        obtain ⟨⟨x1, x2, x3⟩, xc⟩ := hinv N
        refine ⟨⟨fun hm => ?_, fun hm => ?_, fun hm => ?_⟩, fun hm => ?_⟩
        · obtain ⟨a, b, c, d⟩ := x1 (e1.mp hm)
          exact ⟨fun q => a (e2.mp q), fun q => b (e3.mp q),
            fun q => c (e4.mp q), fun q => d (e5.mp q)⟩
        · obtain ⟨b, c, d⟩ := x2 (e2.mp hm)
          exact ⟨fun q => b (e3.mp q), fun q => c (e4.mp q), fun q => d (e5.mp q)⟩
        · obtain ⟨c, d⟩ := x3 (e3.mp hm)
          exact ⟨fun q => c (e4.mp q), fun q => d (e5.mp q)⟩
        · intro hmem
          exact xc (hm.elim (fun q => Or.inl (e4.mp q)) (fun q => Or.inr (e5.mp q)))
            (catKeys_dispatch_subset args nslce s ctx hmem)
    · intro N hNm
      have hne : N ≠ fileNameOf ctx.path := fun h => hf (h ▸ hNm)
      obtain ⟨e1, e2, e3, e4, e5⟩ := dispatch_mem_ne args nslce s ctx hne
      obtain ⟨a, b, c, d, e⟩ := hclean N (List.mem_cons_of_mem _ hNm)
      exact ⟨fun q => a (e1.mp q), fun q => b (e2.mp q), fun q => c (e3.mp q),
        fun q => d (e4.mp q), fun q => e (e5.mp q)⟩

/-- C7 amended: in a run that starts with the five result lists empty,
visits files with pairwise-distinct base names, and in which every
modification-time read succeeds, every name ends up in at most one of the
five append-only lists — except that it may be in both the checksum and
the older-date lists — and a name in either of those two has been deleted
from the catalog dictionary, so it is never in the residual
`REMOVE_FROM_CATALOG` set.  (Both extra conditions are necessary: see the
counterexample for duplicate base names, and the failing-`getmtime` path
of `inCatalogStep`, which leaves a checksum-flagged name in the
catalog.) -/
theorem C7_exclusive_categories (args : Args) (nslce : NslceT)
    (files : List FileCtx) (s0 : RunState)
    (h1 : s0.inconsistent_file_naming = [])
    (h2 : s0.inconsistent_epoch_files = [])
    (h3 : s0.missing_in_mongo_files = [])
    (h4 : s0.inconsistent_checksum_files = [])
    (h5 : s0.older_date_files = [])
    (hdist : (files.map (fun ctx => fileNameOf ctx.path)).Nodup)
    (hmts : ∀ ctx ∈ files, ctx.mtime ≠ none) :
    ∀ N, exclusiveFive (runWalk args nslce s0 files) N ∧
      chkOlderRemoved (runWalk args nslce s0 files) N := by
  apply c7_aux args nslce files s0 hdist hmts
  · intro N
    refine ⟨⟨fun hm => ?_, fun hm => ?_, fun hm => ?_⟩, fun hm => ?_⟩
    · rw [h1] at hm
      exact absurd hm (List.not_mem_nil N)
    · rw [h2] at hm
      exact absurd hm (List.not_mem_nil N)
    · rw [h3] at hm
      exact absurd hm (List.not_mem_nil N)
    · rcases hm with hm | hm
      · rw [h4] at hm
        exact absurd hm (List.not_mem_nil N)
      · rw [h5] at hm
        exact absurd hm (List.not_mem_nil N)
  · intro N _
    refine ⟨?_, ?_, ?_, ?_, ?_⟩ <;>
      simp [h1, h2, h3, h4, h5]

/-- A file under the 2015 year directory, in the catalog with a stale
`createdAt` (100 < mtime 200). -/
def ctx7a : FileCtx :=
  { path := "/data/2015/HL/ATH/HHZ.D/HL.ATH.00.HHZ.D.2015.100"
    md5 := some "abc123", mtime := some 200 }

/-- A second walkable file sharing the same base name, mis-filed under the
2016 year directory. -/
def ctx7b : FileCtx :=
  { path := "/data/2016/HL/ATH/HHZ.D/HL.ATH.00.HHZ.D.2015.100"
    md5 := some "abc123", mtime := some 50 }

def args7 : Args := { startY := 2015, endY := 2016, exclude := none, checksum := true }

/-- C7: refuted as stated.  A run visiting two files with the same base
name — one under `2015/`, one under `2016/`, both admitted by the walk —
puts the name in two of the five collections outside the allowed
checksum/older pair: the first visit (matched, stale mtime) appends it to
`older_date_files` and deletes the catalog key, so the second visit
appends the very same name to `missing_in_mongo_files`. -/
theorem C7_counterexample :
    ctx7a.path ≠ ctx7b.path ∧
    fileNameOf ctx7a.path = fileNameOf ctx7b.path ∧
    (runWalk args7 nslceEx stateEx [ctx7a, ctx7b]).older_date_files =
      ["HL.ATH.00.HHZ.D.2015.100"] ∧
    (runWalk args7 nslceEx stateEx [ctx7a, ctx7b]).missing_in_mongo_files =
      ["HL.ATH.00.HHZ.D.2015.100"] := by
  exact ⟨by decide, by decide, by rfl, by rfl⟩

/-- C7 witness: two distinct consistent/missing files from the fixture,
all mtime reads succeeding; the amended claim holds for the name
`HL.ATH.00.HHZ.D.2015.100`. -/
theorem C7_exclusive_categories_witness :
    exclusiveFive (runWalk argsEx nslceEx stateEx
      [ctxEx, { path := "/data/2015/HL/ATH/HHZ.D/HL.ATH.00.HHZ.D.2015.101", md5 := some "zz", mtime := some 50 }])
      "HL.ATH.00.HHZ.D.2015.100" ∧
    chkOlderRemoved (runWalk argsEx nslceEx stateEx
      [ctxEx, { path := "/data/2015/HL/ATH/HHZ.D/HL.ATH.00.HHZ.D.2015.101", md5 := some "zz", mtime := some 50 }])
      "HL.ATH.00.HHZ.D.2015.100" := by
  exact C7_exclusive_categories argsEx nslceEx
    [ctxEx, { path := "/data/2015/HL/ATH/HHZ.D/HL.ATH.00.HHZ.D.2015.101", md5 := some "zz", mtime := some 50 }]
    stateEx rfl rfl rfl rfl rfl (by decide) (by decide) "HL.ATH.00.HHZ.D.2015.100"

end WfcConsistency
